import Mathlib

/-!
Verification model of the streaming chat WebSocket hook
(`src/hooks/useChatWebSocket.ts`).

The hook's observable state (React `useState` / `useRef` cells) is modelled
as an explicit `ChatState` record, and each event handler of the source
(`handleStreamingMessage`, `handleAdminResponse`, `sendMessage`, `connect`,
`disconnect`, the socket callbacks and the two timers) becomes a pure state
transition function.  Consumer callbacks (`onObjectsUpdated`,
`onWorkflowsUpdated`, `onLayoutGenerated`) are modelled as an append-only
dispatch log; frames written to the socket and `console.error` output are
logged likewise.

`JSON.parse` (a JavaScript builtin, not repository code) is modelled by an
executable recursive-descent parser over a first-order JSON value type.
Like the builtin it accepts surrounding whitespace (so the source's
`.trim()` before parsing is absorbed into the parser), rejects trailing
non-whitespace, keeps the last of duplicate object keys on lookup, and
rejects prefixes of incomplete documents.  Known deliberate simplifications,
none observable by the claims under audit: `\uXXXX` string escapes are
rejected rather than decoded, numbers are kept as their validated source
token rather than as floats, and string lengths count characters rather
than UTF-16 code units.
-/

mutual

inductive Json where
  | null : Json
  | bool (b : Bool) : Json
  | num (tok : String) : Json
  | str (s : String) : Json
  | arr (elems : JArr) : Json
  | obj (fields : JObj) : Json
  deriving DecidableEq

inductive JArr where
  | nil : JArr
  | cons (hd : Json) (tl : JArr) : JArr
  deriving DecidableEq

inductive JObj where
  | nil : JObj
  | cons (key : String) (val : Json) (tl : JObj) : JObj
  deriving DecidableEq

end

def lbrace : Char := Char.ofNat 123

def rbrace : Char := Char.ofNat 125

def isWsChar (c : Char) : Bool :=
  c = ' ' || c = '\t' || c = '\n' || c = '\r'

def skipWs (cs : List Char) : List Char := cs.dropWhile isWsChar

def numChar (c : Char) : Bool :=
  c.isDigit || c = '-' || c = '+' || c = '.' || c = 'e' || c = 'E'

def unescape (c : Char) : Option Char :=
  if c = '"' then some '"'
  else if c = '\\' then some '\\'
  else if c = '/' then some '/'
  else if c = 'n' then some '\n'
  else if c = 't' then some '\t'
  else if c = 'r' then some '\r'
  else if c = 'b' then some (Char.ofNat 8)
  else if c = 'f' then some (Char.ofNat 12)
  else none

/-- Scan a JSON string body (the input starts right after the opening
quote); returns the decoded characters and the remainder after the closing
quote. -/
def scanStr : List Char → Option (List Char × List Char)
  | [] => none
  | c :: cs =>
    if c = '"' then some ([], cs)
    else if c = '\\' then
      match cs with
      | [] => none
      | e :: cs2 =>
        match unescape e with
        | some d =>
          match scanStr cs2 with
          | some (s, r) => some (d :: s, r)
          | none => none
        | none => none
    else
      match scanStr cs with
      | some (s, r) => some (c :: s, r)
      | none => none

/-- Exponent part of a JSON number token (possibly empty, must end the
token). -/
def expPart : List Char → Bool
  | [] => true
  | e :: t =>
    (e = 'e' || e = 'E') &&
      (let t2 := match t with
        | s :: t3 => if s = '+' || s = '-' then t3 else t
        | [] => t
      match t2 with
      | c :: _ => c.isDigit && (t2.dropWhile Char.isDigit) = []
      | [] => false)

/-- Fraction part of a JSON number token (possibly empty), then exponent. -/
def fracPart : List Char → Bool
  | '.' :: t =>
    (match t with
     | c :: _ => c.isDigit && expPart (t.dropWhile Char.isDigit)
     | [] => false)
  | t => expPart t

/-- Integer part of a JSON number token: `0` or a nonzero-led digit run. -/
def intPart : List Char → Bool
  | '0' :: t => fracPart t
  | c :: t => c.isDigit && fracPart (t.dropWhile Char.isDigit)
  | [] => false

/-- Validity of a complete JSON number token (RFC 8259 grammar). -/
def validNumTok (cs : List Char) : Bool :=
  match cs with
  | '-' :: t => intPart t
  | t => intPart t

/-- Maximal-munch number token at the head of the input. -/
def parseNum (cs : List Char) : Option (Json × List Char) :=
  let tok := cs.takeWhile numChar
  if validNumTok tok then some (.num (String.mk tok), cs.dropWhile numChar)
  else none

mutual

/-- One JSON value at the head of the input (no leading-whitespace skip);
fuel bounds the recursion depth and is in practice the input length plus
one. -/
def parseVal : Nat → List Char → Option (Json × List Char)
  | 0, _ => none
  | _ + 1, [] => none
  | fuel + 1, c :: cs =>
    if c = '"' then
      match scanStr cs with
      | some (s, r) => some (.str (String.mk s), r)
      | none => none
    else if c = lbrace then
      match skipWs cs with
      | [] => none
      | d :: r =>
        if d = rbrace then some (.obj .nil, r)
        else
          match parseMembers fuel (d :: r) with
          | some (ms, r2) => some (.obj ms, r2)
          | none => none
    else if c = '[' then
      match skipWs cs with
      | [] => none
      | d :: r =>
        if d = ']' then some (.arr .nil, r)
        else
          match parseItems fuel (d :: r) with
          | some (xs, r2) => some (.arr xs, r2)
          | none => none
    else if c = 't' then
      match cs with
      | 'r' :: 'u' :: 'e' :: r => some (.bool true, r)
      | _ => none
    else if c = 'f' then
      match cs with
      | 'a' :: 'l' :: 's' :: 'e' :: r => some (.bool false, r)
      | _ => none
    else if c = 'n' then
      match cs with
      | 'u' :: 'l' :: 'l' :: r => some (.null, r)
      | _ => none
    else if c.isDigit || c = '-' then parseNum (c :: cs)
    else none

/-- Nonempty member list of a JSON object, starting at the first key's
opening quote, consuming through the closing brace. -/
def parseMembers : Nat → List Char → Option (JObj × List Char)
  | 0, _ => none
  | fuel + 1, cs =>
    match cs with
    | [] => none
    | q :: cs1 =>
      if q = '"' then
        match scanStr cs1 with
        | some (key, cs2) =>
          (match skipWs cs2 with
           | [] => none
           | co :: cs3 =>
             if co = ':' then
               match parseVal fuel (skipWs cs3) with
               | some (v, cs4) =>
                 (match skipWs cs4 with
                  | [] => none
                  | d :: r =>
                    if d = ',' then
                      match parseMembers fuel (skipWs r) with
                      | some (ms, r2) => some (.cons (String.mk key) v ms, r2)
                      | none => none
                    else if d = rbrace then some (.cons (String.mk key) v .nil, r)
                    else none)
               | none => none
             else none)
        | none => none
      else none

/-- Nonempty item list of a JSON array, starting at the first item,
consuming through the closing bracket. -/
def parseItems : Nat → List Char → Option (JArr × List Char)
  | 0, _ => none
  | fuel + 1, cs =>
    match parseVal fuel cs with
    | some (v, cs2) =>
      (match skipWs cs2 with
       | [] => none
       | d :: r =>
         if d = ',' then
           match parseItems fuel (skipWs r) with
           | some (xs, r2) => some (.cons v xs, r2)
           | none => none
         else if d = ']' then some (.cons v .nil, r)
         else none)
    | none => none

end

/-- Model of `JSON.parse(s.trim())`: whole-input parse tolerating
surrounding whitespace. -/
def parseJson (s : String) : Option Json :=
  match parseVal (s.data.length + 1) (skipWs s.data) with
  | some (j, r) => if r.all isWsChar then some j else none
  | none => none

/-! ## JSON value helpers (JavaScript object semantics) -/

/-- Property access `j[key]` as JavaScript sees a `JSON.parse` result:
defined only on objects, later duplicate keys shadow earlier ones, access
on any non-object yields `undefined` (here `none`). -/
def getField (j : Json) (key : String) : Option Json :=
  match j with
  | .obj ms => JObj.lookupLast ms key
  | _ => none
where
  JObj.lookupLast : JObj → String → Option Json
    | .nil, _ => none
    | .cons k v tl, key =>
      match JObj.lookupLast tl key with
      | some r => some r
      | none => if k = key then some v else none

/-- JavaScript truthiness of a `JSON.parse` result: `null`, `false`, `0`
and `""` are falsy; objects and arrays are always truthy.  A number token
denotes zero exactly when its mantissa has no nonzero digit. -/
def truthy (j : Json) : Bool :=
  match j with
  | .null => false
  | .bool b => b
  | .str s => !s.isEmpty
  | .num tok =>
    (tok.data.takeWhile (fun c => c ≠ 'e' ∧ c ≠ 'E')).any
      (fun c => c.isDigit && c ≠ '0')
  | .arr _ => true
  | .obj _ => true

/-- Truthiness of a possibly-`undefined` property (`undefined` is falsy). -/
def truthyOpt (j : Option Json) : Bool :=
  match j with
  | some v => truthy v
  | none => false

def JObj.toList : JObj → List (String × Json)
  | .nil => []
  | .cons k v tl => (k, v) :: JObj.toList tl

def JArr.toList : JArr → List Json
  | .nil => []
  | .cons h tl => h :: JArr.toList tl

/-- Model of `Object.entries`: key/value pairs for objects, index/value
pairs for arrays, index/character pairs for strings, `[]` for the other
primitives. -/
def entriesOf (j : Json) : List (String × Json) :=
  match j with
  | .obj ms => ms.toList
  | .arr xs => xs.toList.enum.map (fun p => (toString p.1, p.2))
  | .str s => s.data.enum.map (fun p => (toString p.1, Json.str (String.mk [p.2])))
  | _ => []

mutual

def serJson : Json → String
  | .null => "null"
  | .bool true => "true"
  | .bool false => "false"
  | .num tok => tok
  | .str s => "\"" ++ s ++ "\""
  | .arr xs => "[" ++ serArr xs ++ "]"
  | .obj ms => "\x7b" ++ serObj ms ++ "\x7d"

def serArr : JArr → String
  | .nil => ""
  | .cons h .nil => serJson h
  | .cons h tl => serJson h ++ "," ++ serArr tl

def serObj : JObj → String
  | .nil => ""
  | .cons k v .nil => "\"" ++ k ++ "\":" ++ serJson v
  | .cons k v tl => "\"" ++ k ++ "\":" ++ serJson v ++ "," ++ serObj tl

end

/-- Text stored into a `Message.content : string` slot when the source
assigns it a parsed JSON value: a string lands verbatim, any other value
is displayed via its serialization. -/
def displayOf (j : Json) : String :=
  match j with
  | .str s => s
  | j => serJson j

/-- Model of `x.k || dflt`: the property if present and truthy, else the
default. -/
def jGetOr (j : Json) (key : String) (dflt : Json) : Json :=
  match getField j key with
  | some v => if truthy v then v else dflt
  | none => dflt

/-! ## Data model of the hook state -/

inductive Sender where
  | user : Sender
  | assistant : Sender
  deriving DecidableEq

/-- The `Message` interface.  `id` is `Date.now().toString()` in the
source; the clock value is modelled as a `Nat` passed into each event. -/
structure Message where
  id : Nat
  sender : Sender
  content : String
  timestamp : Nat
  parsedResponse : Option Json
  deriving DecidableEq

/-- Converted object record pushed to `onObjectsUpdated` (the fresh
`id`/`created_at`/`updated_at` fields of the source are nondeterministic
`Date.now() + Math.random()` values and are elided). -/
structure ObjectRec where
  name : String
  fields : Json
  deriving DecidableEq

/-- Converted workflow record pushed to `onWorkflowsUpdated` (fresh
`id`/`created_at`/`updated_at` elided as for `ObjectRec`). -/
structure WorkflowRec where
  name : String
  steps : Json
  app_id : Json
  description : Json
  status : String
  deriving DecidableEq

/-- One consumer invocation recorded by the model. -/
inductive Dispatch where
  | objectsUpdated (objs : List ObjectRec) : Dispatch
  | workflowsUpdated (wfs : List WorkflowRec) : Dispatch
  | layoutGenerated (layout : Json) : Dispatch
  deriving DecidableEq

/-- Which optional consumer callbacks the caller registered. -/
structure Props where
  onNewAppCreated : Bool
  onWorkflowsUpdated : Bool
  onObjectsUpdated : Bool
  onLayoutGenerated : Bool
  deriving DecidableEq

inductive WsReady where
  | connecting : WsReady
  | open : WsReady
  | closing : WsReady
  | closed : WsReady
  deriving DecidableEq

/-- The hook's mutable cells, plus observation logs (`dispatches`,
`wireSent`, `consoleErrors`) and the socket bookkeeping needed by the
connection claims (`wsState` mirrors `wsRef.current?.readyState`,
`reconnectPending` the pending `setTimeout` delay, `socketsCreated` the
number of `new WebSocket(...)` constructions). -/
structure ChatState where
  messages : List Message
  isConnected : Bool
  isLoading : Bool
  currentMessage : String
  currentAssistant : Bool
  lastProcessedResponse : Option Json
  responseCompleted : Bool
  dispatches : List Dispatch
  wireSent : List Json
  consoleErrors : List String
  wsState : Option WsReady
  reconnectPending : Option Nat
  socketsCreated : Nat
  deriving DecidableEq

def initialState : ChatState where
  messages := []
  isConnected := false
  isLoading := false
  currentMessage := ""
  currentAssistant := false
  lastProcessedResponse := none
  responseCompleted := false
  dispatches := []
  wireSent := []
  consoleErrors := []
  wsState := none
  reconnectPending := none
  socketsCreated := 0

/-! ## Constants observed in the source -/

def messageLengthCeiling : Nat := 10000

def reconnectDelayMs : Nat := 3000

def responseTimeoutMs : Nat := 30000

def gracefulCloseCode : Nat := 1000

/-! ## Connection manager (`connect`, socket callbacks, `disconnect`) -/

/-- `connect()` (source lines 38-83): a no-op when the current socket is
`OPEN`, otherwise constructs a fresh `WebSocket` (state `CONNECTING`).
The reconnect timer is not touched here; it is cleared only in the
`onopen` callback. -/
def connect (s : ChatState) : ChatState :=
  if s.wsState = some .open then s
  else { s with wsState := some .connecting, socketsCreated := s.socketsCreated + 1 }

/-- The `ws.onopen` callback: marks the hook connected and clears any
pending reconnect timer. -/
def onOpen (s : ChatState) : ChatState :=
  { s with wsState := some WsReady.open, isConnected := true, reconnectPending := none }

/-- The `ws.onclose` callback: marks the hook disconnected and, for any
close code other than the graceful `1000`, schedules one reconnect attempt
after `reconnectDelayMs`. -/
def onClose (code : Nat) (s : ChatState) : ChatState :=
  let s1 := { s with wsState := some .closed, isConnected := false }
  if code ≠ gracefulCloseCode then { s1 with reconnectPending := some reconnectDelayMs }
  else s1

/-- The `ws.onerror` callback. -/
def onError (s : ChatState) : ChatState :=
  { s with isConnected := false }

/-- `disconnect()` (source lines 246-254): closes the socket when one
exists and cancels any pending reconnect timer. -/
def disconnect (s : ChatState) : ChatState :=
  let s1 := match s.wsState with
    | some _ => { s with wsState := some .closing }
    | none => s
  { s1 with reconnectPending := none }

/-- Expiry of the pending reconnect timer: the timer is consumed and its
callback runs `connect()`. -/
def reconnectFire (s : ChatState) : ChatState :=
  connect { s with reconnectPending := none }

/-- Expiry of the 30-second response watchdog armed while `isLoading`
(source lines 263-274): stops the loading state and abandons the
in-progress assistant message.  Note it does not set
`responseCompletedRef`. -/
def loadingTimeoutFire (s : ChatState) : ChatState :=
  { s with isLoading := false, currentAssistant := false }

/-! ## Response router (`handleAdminResponse`) -/

/-- Conversion applied to `Object.entries(config.objects)` (source lines
94-100). -/
def convertObjects (entries : List (String × Json)) : List ObjectRec :=
  entries.map (fun p => ⟨p.1, jGetOr p.2 "fields" (.obj .nil)⟩)

/-- Conversion applied to `Object.entries(config.workflows)` (source lines
108-117). -/
def convertWorkflows (appId : Json) (entries : List (String × Json)) :
    List WorkflowRec :=
  entries.map (fun p =>
    ⟨p.1, jGetOr p.2 "steps" (.arr .nil), appId, jGetOr p.2 "description" (.str ""), "draft"⟩)

/-- Section `config?.k` of the admin response. -/
def secOf (cfg : Option Json) (key : String) : Option Json :=
  match cfg with
  | some c => getField c key
  | none => none

/-- `handleAdminResponse` (source lines 85-130): fans independently-present
truthy `config` sections out to the registered consumers, then stops the
loading state and abandons the in-progress assistant message reference.
It never touches the message list. -/
def handleAdminResponse (p : Props) (s : ChatState) (response : Json) : ChatState :=
  let cfg := getField response "config"
  let s1 :=
    if truthyOpt (secOf cfg "objects") && p.onObjectsUpdated then
      { s with dispatches := s.dispatches ++
          [.objectsUpdated (convertObjects (entriesOf ((secOf cfg "objects").getD .null)))] }
    else s
  let s2 :=
    if truthyOpt (secOf cfg "workflows") && p.onWorkflowsUpdated then
      { s1 with dispatches := s1.dispatches ++
          [.workflowsUpdated (convertWorkflows (jGetOr (cfg.getD .null) "app_id" (.num "1"))
            (entriesOf ((secOf cfg "workflows").getD .null)))] }
    else s1
  let s3 :=
    if truthyOpt (secOf cfg "layout") && p.onLayoutGenerated then
      { s2 with dispatches := s2.dispatches ++
          [.layoutGenerated ((secOf cfg "layout").getD .null)] }
    else s2
  { s3 with isLoading := false, currentAssistant := false }

/-! ## Incremental response parser (`handleStreamingMessage`) -/

def newAssistantMsg (t : Nat) (content : String) : Message :=
  ⟨t, .assistant, content, t, none⟩

/-- The `setMessages` updater used by the source at lines 153-160 and
176-184: apply `f` to the last message provided it exists and is
assistant-authored. -/
def updateLastIfAssistant (f : Message → Message) : List Message → List Message
  | [] => []
  | [m] => [if m.sender = .assistant then f m else m]
  | m :: rest => m :: updateLastIfAssistant f rest

/-- Buffer append and message creation/update of source lines 139-161. -/
def appendChunk (t : Nat) (s : ChatState) (buf : String) : ChatState :=
  if s.currentAssistant = false then
    { s with currentMessage := buf, currentAssistant := true,
             messages := s.messages ++ [newAssistantMsg t buf] }
  else
    { s with currentMessage := buf,
             messages := updateLastIfAssistant (fun m => { m with content := buf }) s.messages }

/-- Length-ceiling escape hatch of source lines 202-207. -/
def overflowCheck (s : ChatState) (buf : String) : ChatState :=
  if buf.length > messageLengthCeiling then
    { s with isLoading := false, currentAssistant := false, responseCompleted := true }
  else s

/-- `handleStreamingMessage` (source lines 132-208), the incremental
parser, dedup guard and completion latch in one handler; `t` stands for
`Date.now()` at the event. -/
def handleStreamingMessage (p : Props) (t : Nat) (s : ChatState) (chunk : String) :
    ChatState :=
  if s.responseCompleted then s
  else
    let buf := s.currentMessage ++ chunk
    let s2 := appendChunk t s buf
    match parseJson buf with
    | some parsed =>
      if truthyOpt (getField parsed "type") && truthyOpt (getField parsed "reply") then
        if s2.lastProcessedResponse = some parsed then s2
        else
          let replyV := (getField parsed "reply").getD .null
          let s3 := { s2 with
            lastProcessedResponse := some parsed,
            responseCompleted := true,
            messages := updateLastIfAssistant
              (fun m => { m with parsedResponse := some parsed, content := displayOf replyV })
              s2.messages }
          let s4 :=
            if s3.currentAssistant then { s3 with currentMessage := displayOf replyV } else s3
          if getField parsed "type" = some (.str "admin") then handleAdminResponse p s4 parsed
          else { s4 with isLoading := false, currentAssistant := false }
      else overflowCheck s2 buf
    | none => overflowCheck s2 buf

/-! ## Sending (`sendMessage`) -/

/-- The frame written to the socket by `sendMessage` (source lines
230-240): only the newly-typed message plus a fixed session context. -/
def wsFrame (content : String) : Json :=
  .obj (.cons "messages"
          (.arr (.cons (.obj (.cons "role" (.str "user")
                               (.cons "content" (.str content) .nil))) .nil))
          (.cons "context" (.obj (.cons "session_id" (.str "default") .nil)) .nil))

/-- `sendMessage` (source lines 210-244).  When no socket exists or the
hook is not connected it logs `WebSocket not connected` to the console and
returns without raising any error and without touching any other state.
Otherwise it appends the user message, starts loading, resets the
streaming buffer, the in-progress reference and the completion latch
(but not `lastProcessedResponseRef`), and writes one frame to the wire. -/
def sendMessage (t : Nat) (s : ChatState) (content : String) : ChatState :=
  if s.wsState = none || s.isConnected = false then
    { s with consoleErrors := s.consoleErrors ++ ["WebSocket not connected"] }
  else
    { s with
      messages := s.messages ++ [⟨t, .user, content, t, none⟩],
      isLoading := true,
      currentMessage := "",
      currentAssistant := false,
      responseCompleted := false,
      wireSent := s.wireSent ++ [wsFrame content] }

/-! ## Derived run notions -/

/-- Concatenation of a fragment sequence. -/
def concatFrags (frags : List String) : String :=
  frags.foldr (fun a b => a ++ b) ""

/-- Feeding a fragment sequence to the streaming handler in order. -/
def runFragments (p : Props) (t : Nat) (s : ChatState) (frags : List String) : ChatState :=
  frags.foldl (handleStreamingMessage p t) s

/-- All intermediate states of a run, starting state included. -/
def runStates (p : Props) (t : Nat) (s : ChatState) : List String → List ChatState
  | [] => [s]
  | f :: fs => s :: runStates p t (handleStreamingMessage p t s f) fs

/-- Number of `false → true` transitions of the completion latch along a
state list. -/
def closeFlips : List ChatState → Nat
  | a :: b :: rest =>
    (if a.responseCompleted = false ∧ b.responseCompleted = true then 1 else 0) +
      closeFlips (b :: rest)
  | _ => 0

/-- How many times a run of the handler closes the Turn. -/
def closeCount (p : Props) (t : Nat) (s : ChatState) (frags : List String) : Nat :=
  closeFlips (runStates p t s frags)

/-- The buffer closes the Turn exactly when it parses as an object whose
`type` and `reply` properties are both present and truthy. -/
def envelopeOf (buf : String) : Option Json :=
  match parseJson buf with
  | some j =>
    if truthyOpt (getField j "type") && truthyOpt (getField j "reply") then some j
    else none
  | none => none

/-! ## Basic lemmas about the handlers -/

theorem handleStreaming_of_completed (p : Props) (t : Nat) (s : ChatState) (chunk : String)
    (h : s.responseCompleted = true) : handleStreamingMessage p t s chunk = s := by
  simp [handleStreamingMessage, h]

theorem runFragments_of_completed (p : Props) (t : Nat) (s : ChatState) (frags : List String)
    (h : s.responseCompleted = true) : runFragments p t s frags = s := by
  induction frags with
  | nil => rfl
  | cons f fs ih =>
    show runFragments p t (handleStreamingMessage p t s f) fs = s
    rw [handleStreaming_of_completed p t s f h, ih]

theorem runFragments_cons (p : Props) (t : Nat) (s : ChatState) (f : String) (fs : List String) :
    runFragments p t s (f :: fs) = runFragments p t (handleStreamingMessage p t s f) fs := rfl

theorem closeFlips_cons_runStates (p : Props) (t : Nat) (s s1 : ChatState) (fs : List String) :
    closeFlips (s :: runStates p t s1 fs) =
      (if s.responseCompleted = false ∧ s1.responseCompleted = true then 1 else 0) +
        closeFlips (runStates p t s1 fs) := by
  cases fs <;> rfl

theorem closeCount_eq (p : Props) (t : Nat) (frags : List String) :
    ∀ s : ChatState, closeCount p t s frags =
      if s.responseCompleted then 0
      else if (runFragments p t s frags).responseCompleted then 1 else 0 := by
  induction frags with
  | nil =>
    intro s
    by_cases h : s.responseCompleted <;> simp [closeCount, runStates, closeFlips, runFragments, h]
  | cons f fs ih =>
    intro s
    show closeFlips (s :: runStates p t (handleStreamingMessage p t s f) fs) = _
    rw [closeFlips_cons_runStates]
    by_cases h : s.responseCompleted
    · rw [handleStreaming_of_completed p t s f h]
      have := ih s
      simp only [closeCount] at this
      simp [this, h, runFragments_cons, handleStreaming_of_completed p t s f h]
    · have := ih (handleStreamingMessage p t s f)
      simp only [closeCount] at this
      rw [this]
      by_cases h1 : (handleStreamingMessage p t s f).responseCompleted
      · simp [h, h1, runFragments_cons,
          runFragments_of_completed p t _ fs h1]
      · simp [h, h1, runFragments_cons]

/-! ## Message-list update helpers -/

theorem updateLastIfAssistant_nil (f : Message → Message) : updateLastIfAssistant f [] = [] := rfl

theorem updateLastIfAssistant_append (f : Message → Message) (l : List Message) (m : Message) :
    updateLastIfAssistant f (l ++ [m]) =
      l ++ [if m.sender = .assistant then f m else m] := by
  induction l with
  | nil => rfl
  | cons a l ih =>
    cases l with
    | nil => simp [updateLastIfAssistant]
    | cons b l => simpa [updateLastIfAssistant] using ih

theorem updateLastIfAssistant_id (l : List Message) :
    updateLastIfAssistant (fun m => m) l = l := by
  induction l with
  | nil => rfl
  | cons a l ih =>
    cases l with
    | nil => simp [updateLastIfAssistant]
    | cons b l => simpa [updateLastIfAssistant] using ih

theorem updateLastIfAssistant_length (f : Message → Message) (l : List Message) :
    (updateLastIfAssistant f l).length = l.length := by
  induction l with
  | nil => rfl
  | cons a l ih =>
    cases l with
    | nil => simp [updateLastIfAssistant]
    | cons b l => simpa [updateLastIfAssistant] using ih

theorem updateLastIfAssistant_dropLast (f : Message → Message) (l : List Message) :
    (updateLastIfAssistant f l).dropLast = l.dropLast := by
  induction l with
  | nil => rfl
  | cons a l ih =>
    cases l with
    | nil => simp [updateLastIfAssistant]
    | cons b l =>
      have hlen : (updateLastIfAssistant f (b :: l)).length = (b :: l).length :=
        updateLastIfAssistant_length f (b :: l)
      simp only [updateLastIfAssistant]
      cases hu : updateLastIfAssistant f (b :: l) with
      | nil => simp [hu] at hlen
      | cons c l2 =>
        simp only [List.dropLast_cons₂] at ih ⊢
        rw [← hu, ih]

theorem updateLastIfAssistant_getLast? (f : Message → Message) (l : List Message) :
    (updateLastIfAssistant f l).getLast? =
      l.getLast?.map (fun m => if m.sender = .assistant then f m else m) := by
  induction l with
  | nil => rfl
  | cons a l ih =>
    cases l with
    | nil => simp [updateLastIfAssistant]
    | cons b l =>
      have hlen : (updateLastIfAssistant f (b :: l)).length = (b :: l).length :=
        updateLastIfAssistant_length f (b :: l)
      simp only [updateLastIfAssistant]
      cases hu : updateLastIfAssistant f (b :: l) with
      | nil => simp [hu] at hlen
      | cons c l2 =>
        rw [hu] at ih
        rw [List.getLast?_cons_cons, List.getLast?_cons_cons, ih]

/-! ## Frame facts for the handler building blocks -/

theorem appendChunk_fields (t : Nat) (s : ChatState) (buf : String) :
    (appendChunk t s buf).currentAssistant = true ∧
    (appendChunk t s buf).currentMessage = buf ∧
    (appendChunk t s buf).responseCompleted = s.responseCompleted ∧
    (appendChunk t s buf).lastProcessedResponse = s.lastProcessedResponse ∧
    (appendChunk t s buf).isLoading = s.isLoading ∧
    (appendChunk t s buf).dispatches = s.dispatches := by
  unfold appendChunk
  split
  · simp
  · next h =>
    have hb : s.currentAssistant = true := by
      cases hb : s.currentAssistant
      · exact absurd hb h
      · rfl
    simp [hb]

theorem appendChunk_messages (t : Nat) (s : ChatState) (buf : String) :
    (appendChunk t s buf).messages =
      (if s.currentAssistant = false then s.messages ++ [newAssistantMsg t buf]
       else updateLastIfAssistant (fun m => { m with content := buf }) s.messages) := by
  unfold appendChunk; split <;> simp_all

theorem handleAdminResponse_fields (p : Props) (s : ChatState) (resp : Json) :
    (handleAdminResponse p s resp).responseCompleted = s.responseCompleted ∧
    (handleAdminResponse p s resp).messages = s.messages ∧
    (handleAdminResponse p s resp).lastProcessedResponse = s.lastProcessedResponse ∧
    (handleAdminResponse p s resp).isLoading = false ∧
    (handleAdminResponse p s resp).currentAssistant = false := by
  unfold handleAdminResponse
  dsimp only
  split <;> split <;> split <;> simp

theorem overflowCheck_fields (s : ChatState) (buf : String) :
    (overflowCheck s buf).messages = s.messages ∧
    (overflowCheck s buf).currentMessage = s.currentMessage ∧
    (overflowCheck s buf).lastProcessedResponse = s.lastProcessedResponse ∧
    (overflowCheck s buf).dispatches = s.dispatches := by
  unfold overflowCheck; split <;> simp

theorem overflowCheck_le (s : ChatState) (buf : String)
    (h : buf.length ≤ messageLengthCeiling) : overflowCheck s buf = s := by
  unfold overflowCheck
  rw [if_neg (by omega)]

theorem overflowCheck_gt (s : ChatState) (buf : String)
    (h : buf.length > messageLengthCeiling) :
    overflowCheck s buf =
      { s with isLoading := false, currentAssistant := false, responseCompleted := true } := by
  unfold overflowCheck
  rw [if_pos h]

/-- The close condition of the handler, extracted from `envelopeOf`. -/
theorem envelopeOf_eq_some {buf : String} {j : Json} (h : envelopeOf buf = some j) :
    parseJson buf = some j ∧
      (truthyOpt (getField j "type") && truthyOpt (getField j "reply")) = true := by
  unfold envelopeOf at h
  split at h
  · next j0 hp =>
    split at h
    · next ht => cases h; exact ⟨hp, ht⟩
    · exact absurd h (by simp)
  · exact absurd h (by simp)

theorem envelopeOf_eq_none {buf : String} (h : envelopeOf buf = none) :
    ∀ j, parseJson buf = some j →
      (truthyOpt (getField j "type") && truthyOpt (getField j "reply")) = false := by
  intro j hp
  unfold envelopeOf at h
  split at h
  · next j0 hp0 =>
    rw [hp0] at hp
    cases hp
    split at h
    · exact absurd h (by simp)
    · next ht => simpa using ht
  · next hp0 => rw [hp0] at hp; exact absurd hp (by simp)

/-- Characterization of a non-closing handler step: the buffer does not
form a truthy envelope and stays at or below the ceiling. -/
theorem handleStreaming_open (p : Props) (t : Nat) (s : ChatState) (chunk : String)
    (h0 : s.responseCompleted = false)
    (he : envelopeOf (s.currentMessage ++ chunk) = none)
    (hl : (s.currentMessage ++ chunk).length ≤ messageLengthCeiling) :
    handleStreamingMessage p t s chunk = appendChunk t s (s.currentMessage ++ chunk) := by
  unfold handleStreamingMessage
  rw [if_neg (by simp [h0])]
  cases hp : parseJson (s.currentMessage ++ chunk) with
  | none =>
    simp only [hp]
    exact overflowCheck_le _ _ (by
      have := (appendChunk_fields t s (s.currentMessage ++ chunk)).2.1
      exact hl)
  | some j =>
    have ht := envelopeOf_eq_none he j hp
    simp only [hp, ht, Bool.false_eq_true, if_false]
    exact overflowCheck_le _ _ hl

/-- Characterization of a force-closing (length-ceiling) handler step. -/
theorem handleStreaming_overflow (p : Props) (t : Nat) (s : ChatState) (chunk : String)
    (h0 : s.responseCompleted = false)
    (he : envelopeOf (s.currentMessage ++ chunk) = none)
    (hl : (s.currentMessage ++ chunk).length > messageLengthCeiling) :
    handleStreamingMessage p t s chunk =
      { appendChunk t s (s.currentMessage ++ chunk) with
          isLoading := false, currentAssistant := false, responseCompleted := true } := by
  unfold handleStreamingMessage
  rw [if_neg (by simp [h0])]
  cases hp : parseJson (s.currentMessage ++ chunk) with
  | none =>
    simp only [hp]
    exact overflowCheck_gt _ _ hl
  | some j =>
    have ht := envelopeOf_eq_none he j hp
    simp only [hp, ht, Bool.false_eq_true, if_false]
    exact overflowCheck_gt _ _ hl

/-- Characterization of a committing handler step. -/
theorem handleStreaming_close (p : Props) (t : Nat) (s : ChatState) (chunk : String) (j : Json)
    (h0 : s.responseCompleted = false)
    (he : envelopeOf (s.currentMessage ++ chunk) = some j)
    (hd : s.lastProcessedResponse ≠ some j) :
    handleStreamingMessage p t s chunk =
      (let s2 := appendChunk t s (s.currentMessage ++ chunk)
       let replyV := (getField j "reply").getD .null
       let s3 := { s2 with
         lastProcessedResponse := some j,
         responseCompleted := true,
         messages := updateLastIfAssistant
           (fun m => { m with parsedResponse := some j, content := displayOf replyV })
           s2.messages,
         currentMessage := displayOf replyV }
       if getField j "type" = some (.str "admin") then handleAdminResponse p s3 j
       else { s3 with isLoading := false, currentAssistant := false }) := by
  obtain ⟨hp, ht⟩ := envelopeOf_eq_some he
  unfold handleStreamingMessage
  rw [if_neg (by simp [h0])]
  simp only [hp, ht, if_true]
  rw [if_neg (by
    have := (appendChunk_fields t s (s.currentMessage ++ chunk)).2.2.2.1
    rw [this]; exact hd)]
  have hca : (appendChunk t s (s.currentMessage ++ chunk)).currentAssistant = true :=
    (appendChunk_fields t s (s.currentMessage ++ chunk)).1
  simp only [hca, if_true]

/-- Any non-latched handler step edits the message list exactly as
`appendChunk` followed by an assistant-guarded last-message update whose
function preserves `id`, `sender` and `timestamp`. -/
theorem handleStreaming_messages_shape (p : Props) (t : Nat) (s : ChatState) (chunk : String)
    (h0 : s.responseCompleted = false) :
    ∃ g : Message → Message,
      (∀ m, (g m).id = m.id ∧ (g m).sender = m.sender ∧ (g m).timestamp = m.timestamp) ∧
      (handleStreamingMessage p t s chunk).messages =
        updateLastIfAssistant g (appendChunk t s (s.currentMessage ++ chunk)).messages := by
  unfold handleStreamingMessage
  rw [if_neg (by simp [h0])]
  cases hp : parseJson (s.currentMessage ++ chunk) with
  | none =>
    simp only [hp]
    exact ⟨fun m => m, by simp,
      by rw [(overflowCheck_fields _ _).1, updateLastIfAssistant_id]⟩
  | some j =>
    by_cases ht : (truthyOpt (getField j "type") && truthyOpt (getField j "reply")) = true
    · simp only [hp, ht, if_true]
      by_cases hd :
          (appendChunk t s (s.currentMessage ++ chunk)).lastProcessedResponse = some j
      · rw [if_pos hd]
        exact ⟨fun m => m, by simp, (updateLastIfAssistant_id _).symm⟩
      · rw [if_neg hd]
        have hca := (appendChunk_fields t s (s.currentMessage ++ chunk)).1
        refine ⟨fun m =>
            { m with
              parsedResponse := some j,
              content := displayOf ((getField j "reply").getD .null) },
          by simp, ?_⟩
        simp only [hca, if_true]
        split
        · rw [(handleAdminResponse_fields _ _ _).2.1]
        · rfl
    · simp only [hp, ht, Bool.false_eq_true, if_false]
      exact ⟨fun m => m, by simp,
        by rw [(overflowCheck_fields _ _).1, updateLastIfAssistant_id]⟩

/-! ## Parser extension lemmas

A successful parse of a prefix is stable under appending further input,
which is what makes "the buffer finally parses" well-behaved across the
incremental re-parse attempts of the handler. -/

theorem takeDropWhile_append {α : Type} (p : α → Bool) (cs ext : List α)
    (h : cs.dropWhile p ≠ []) :
    (cs ++ ext).takeWhile p = cs.takeWhile p ∧
      (cs ++ ext).dropWhile p = cs.dropWhile p ++ ext := by
  induction cs with
  | nil => simp [List.dropWhile] at h
  | cons c cs ih =>
    by_cases hc : p c
    · rw [List.dropWhile_cons_of_pos hc] at h
      have := ih h
      simp [List.takeWhile_cons_of_pos hc, List.dropWhile_cons_of_pos hc, this.1, this.2]
    · simp [List.takeWhile_cons_of_neg hc, List.dropWhile_cons_of_neg hc]

theorem skipWs_append_of_cons {cs : List Char} {d : Char} {r : List Char} (ext : List Char)
    (h : skipWs cs = d :: r) : skipWs (cs ++ ext) = d :: (r ++ ext) := by
  have hne : cs.dropWhile isWsChar ≠ [] := by
    unfold skipWs at h; rw [h]; simp
  have := (takeDropWhile_append isWsChar cs ext hne).2
  unfold skipWs at h ⊢
  rw [this, h]; rfl

theorem skipWs_nil : skipWs [] = [] := rfl

theorem ne_nil_of_skipWs_cons {cs : List Char} {d : Char} {r : List Char}
    (h : skipWs cs = d :: r) : cs ≠ [] := by
  intro hc; rw [hc] at h; exact absurd h (by simp [skipWs_nil])

theorem parseVal_nil (fuel : Nat) : parseVal fuel [] = none := by
  cases fuel <;> rfl

theorem parseMembers_nil (fuel : Nat) : parseMembers fuel [] = none := by
  cases fuel <;> rfl

theorem parseItems_nil (fuel : Nat) : parseItems fuel [] = none := by
  cases fuel with
  | zero => rfl
  | succ fuel => simp [parseItems, parseVal_nil]

theorem scanStr_append (cs : List Char) (s r ext : List Char)
    (h : scanStr cs = some (s, r)) : scanStr (cs ++ ext) = some (s, r ++ ext) := by
  induction cs using scanStr.induct generalizing s r with
  | case1 => simp [scanStr.eq_def] at h
  | case2 cs2 =>
    simp [scanStr.eq_def] at h
    obtain ⟨rfl, rfl⟩ := h
    simp [scanStr.eq_def]
  | case3 hne => simp [scanStr.eq_def] at h
  | case4 e cs2 d hu s0 r0 hs hne ih =>
    rw [scanStr.eq_def] at h
    simp [hu, hs] at h
    obtain ⟨rfl, rfl⟩ := h
    rw [scanStr.eq_def]
    simp [hu, ih s0 r0 hs]
  | case5 e cs2 d hu hs hne ih =>
    rw [scanStr.eq_def] at h
    simp [hu, hs] at h
  | case6 e cs2 hu hne =>
    rw [scanStr.eq_def] at h
    simp [hu] at h
  | case7 e cs2 he hne s0 r0 hs ih =>
    rw [scanStr.eq_def] at h
    simp [he, hne, hs] at h
    obtain ⟨rfl, rfl⟩ := h
    rw [scanStr.eq_def]
    simp [he, hne, ih s0 r0 hs]
  | case8 e cs2 he hne hs ih =>
    rw [scanStr.eq_def] at h
    simp [he, hne, hs] at h

theorem parseVal_zero (cs : List Char) : parseVal 0 cs = none := rfl

theorem parseMembers_zero (cs : List Char) : parseMembers 0 cs = none := rfl

theorem parseItems_zero (cs : List Char) : parseItems 0 cs = none := rfl

theorem parseNum_append (cs ext : List Char) (j : Json) (r : List Char)
    (h : parseNum cs = some (j, r)) (hr : r ≠ []) :
    parseNum (cs ++ ext) = some (j, r ++ ext) := by
  simp only [parseNum] at h ⊢
  split at h
  · next hv =>
    cases h
    have hd : cs.dropWhile numChar ≠ [] := hr
    obtain ⟨ht, hd2⟩ := takeDropWhile_append numChar cs ext hd
    rw [ht, hd2, if_pos hv]
  · exact absurd h (by simp)

theorem parseVal_succ_cons (fuel : Nat) (c : Char) (cs : List Char) :
    parseVal (fuel + 1) (c :: cs) =
    (if c = '"' then
      match scanStr cs with
      | some (s, r) => some (.str (String.mk s), r)
      | none => none
    else if c = lbrace then
      match skipWs cs with
      | [] => none
      | d :: r =>
        if d = rbrace then some (.obj .nil, r)
        else
          match parseMembers fuel (d :: r) with
          | some (ms, r2) => some (.obj ms, r2)
          | none => none
    else if c = '[' then
      match skipWs cs with
      | [] => none
      | d :: r =>
        if d = ']' then some (.arr .nil, r)
        else
          match parseItems fuel (d :: r) with
          | some (xs, r2) => some (.arr xs, r2)
          | none => none
    else if c = 't' then
      match cs with
      | 'r' :: 'u' :: 'e' :: r => some (.bool true, r)
      | _ => none
    else if c = 'f' then
      match cs with
      | 'a' :: 'l' :: 's' :: 'e' :: r => some (.bool false, r)
      | _ => none
    else if c = 'n' then
      match cs with
      | 'u' :: 'l' :: 'l' :: r => some (.null, r)
      | _ => none
    else if c.isDigit || c = '-' then parseNum (c :: cs)
    else none) := rfl

theorem parseMembers_succ_cons (fuel : Nat) (q : Char) (cs1 : List Char) :
    parseMembers (fuel + 1) (q :: cs1) =
    (if q = '"' then
      match scanStr cs1 with
      | some (key, cs2) =>
        (match skipWs cs2 with
         | [] => none
         | co :: cs3 =>
           if co = ':' then
             match parseVal fuel (skipWs cs3) with
             | some (v, cs4) =>
               (match skipWs cs4 with
                | [] => none
                | d :: r =>
                  if d = ',' then
                    match parseMembers fuel (skipWs r) with
                    | some (ms, r2) => some (.cons (String.mk key) v ms, r2)
                    | none => none
                  else if d = rbrace then some (.cons (String.mk key) v .nil, r)
                  else none)
             | none => none
           else none)
      | none => none
    else none) := rfl

theorem parseItems_succ (fuel : Nat) (cs : List Char) :
    parseItems (fuel + 1) cs =
    (match parseVal fuel cs with
    | some (v, cs2) =>
      (match skipWs cs2 with
       | [] => none
       | d :: r =>
         if d = ',' then
           match parseItems fuel (skipWs r) with
           | some (xs, r2) => some (.cons v xs, r2)
           | none => none
         else if d = ']' then some (.cons v .nil, r)
         else none)
    | none => none) := rfl



/-- A successful parse is stable under extending the input and increasing
the fuel: the consumed prefix and the result value do not change (for a
number value at the very end of the input the token could grow, whence the
side condition that its remainder be nonempty). -/
theorem parseExtend : ∀ fuel fuel' : Nat, fuel ≤ fuel' →
    (∀ cs j r ext, parseVal fuel cs = some (j, r) →
        (∀ tok, j = .num tok → r ≠ []) →
        parseVal fuel' (cs ++ ext) = some (j, r ++ ext)) ∧
      (∀ cs ms r ext, parseMembers fuel cs = some (ms, r) →
        parseMembers fuel' (cs ++ ext) = some (ms, r ++ ext)) ∧
      (∀ cs xs r ext, parseItems fuel cs = some (xs, r) →
        parseItems fuel' (cs ++ ext) = some (xs, r ++ ext)) := by
  intro fuel
  induction fuel with
  | zero =>
    intro fuel' _
    refine ⟨?_, ?_, ?_⟩
    · intro cs j r ext h _; rw [parseVal_zero] at h; exact absurd h (by simp)
    · intro cs ms r ext h; rw [parseMembers_zero] at h; exact absurd h (by simp)
    · intro cs xs r ext h; rw [parseItems_zero] at h; exact absurd h (by simp)
  | succ fuel ih =>
    intro fuel' hle
    obtain ⟨fuel2, rfl⟩ : ∃ k, fuel' = k + 1 := ⟨fuel' - 1, by omega⟩
    obtain ⟨ihV, ihM, ihI⟩ := ih fuel2 (by omega)
    refine ⟨?_, ?_, ?_⟩
    · -- the parseVal component
      intro cs j r ext h hnum
      cases cs with
      | nil => rw [parseVal_nil] at h; exact absurd h (by simp)
      | cons c cs0 =>
        rw [parseVal_succ_cons] at h
        rw [List.cons_append, parseVal_succ_cons]
        by_cases h1 : c = '"'
        · rw [if_pos h1] at h ⊢
          cases hs : scanStr cs0 with
          | none => rw [hs] at h; exact absurd h (by simp)
          | some pr =>
            obtain ⟨s0, r0⟩ := pr
            rw [hs] at h
            rw [scanStr_append cs0 s0 r0 ext hs]
            dsimp only at h ⊢
            cases h
            rfl
        · rw [if_neg h1] at h ⊢
          by_cases h2 : c = lbrace
          · rw [if_pos h2] at h ⊢
            cases hsk : skipWs cs0 with
            | nil => rw [hsk] at h; exact absurd h (by simp)
            | cons d r1 =>
              rw [hsk] at h
              rw [skipWs_append_of_cons ext hsk]
              dsimp only at h ⊢
              by_cases hd : d = rbrace
              · rw [if_pos hd] at h ⊢
                cases h
                rfl
              · rw [if_neg hd] at h ⊢
                cases hm : parseMembers fuel (d :: r1) with
                | none => rw [hm] at h; exact absurd h (by simp)
                | some pr =>
                  obtain ⟨ms, r2⟩ := pr
                  rw [hm] at h
                  have hext := ihM (d :: r1) ms r2 ext hm
                  rw [List.cons_append] at hext
                  rw [hext]
                  dsimp only at h ⊢
                  cases h
                  rfl
          · rw [if_neg h2] at h ⊢
            by_cases h3 : c = '['
            · rw [if_pos h3] at h ⊢
              cases hsk : skipWs cs0 with
              | nil => rw [hsk] at h; exact absurd h (by simp)
              | cons d r1 =>
                rw [hsk] at h
                rw [skipWs_append_of_cons ext hsk]
                dsimp only at h ⊢
                by_cases hd : d = ']'
                · rw [if_pos hd] at h ⊢
                  cases h
                  rfl
                · rw [if_neg hd] at h ⊢
                  cases hm : parseItems fuel (d :: r1) with
                  | none => rw [hm] at h; exact absurd h (by simp)
                  | some pr =>
                    obtain ⟨xs, r2⟩ := pr
                    rw [hm] at h
                    have hext := ihI (d :: r1) xs r2 ext hm
                    rw [List.cons_append] at hext
                    rw [hext]
                    dsimp only at h ⊢
                    cases h
                    rfl
            · rw [if_neg h3] at h ⊢
              by_cases h4 : c = 't'
              · rw [if_pos h4] at h ⊢
                split at h
                · cases h; rfl
                · exact absurd h (by simp)
              · rw [if_neg h4] at h ⊢
                by_cases h5 : c = 'f'
                · rw [if_pos h5] at h ⊢
                  split at h
                  · cases h; rfl
                  · exact absurd h (by simp)
                · rw [if_neg h5] at h ⊢
                  by_cases h6 : c = 'n'
                  · rw [if_pos h6] at h ⊢
                    split at h
                    · cases h; rfl
                    · exact absurd h (by simp)
                  · rw [if_neg h6] at h ⊢
                    by_cases h7 : (c.isDigit || c = '-') = true
                    · rw [if_pos h7] at h ⊢
                      obtain ⟨tok, htok⟩ : ∃ tok, j = .num tok := by
                        simp only [parseNum] at h
                        split at h
                        · cases h; exact ⟨_, rfl⟩
                        · exact absurd h (by simp)
                      have hr : r ≠ [] := hnum tok htok
                      have := parseNum_append (c :: cs0) ext j r h hr
                      rw [List.cons_append] at this
                      exact this
                    · rw [if_neg h7] at h
                      exact absurd h (by simp)
    · -- the parseMembers component
      intro cs ms r ext h
      cases cs with
      | nil => rw [parseMembers_nil] at h; exact absurd h (by simp)
      | cons q cs1 =>
        rw [parseMembers_succ_cons] at h
        rw [List.cons_append, parseMembers_succ_cons]
        by_cases hq : q = '"'
        · rw [if_pos hq] at h ⊢
          cases hs : scanStr cs1 with
          | none => rw [hs] at h; exact absurd h (by simp)
          | some pr =>
            obtain ⟨key, cs2⟩ := pr
            rw [hs] at h
            rw [scanStr_append cs1 key cs2 ext hs]
            dsimp only at h ⊢
            cases hsk2 : skipWs cs2 with
            | nil => rw [hsk2] at h; exact absurd h (by simp)
            | cons co cs3 =>
              rw [hsk2] at h
              rw [skipWs_append_of_cons ext hsk2]
              dsimp only at h ⊢
              by_cases hco : co = ':'
              · rw [if_pos hco] at h ⊢
                cases hv : parseVal fuel (skipWs cs3) with
                | none => rw [hv] at h; exact absurd h (by simp)
                | some pr2 =>
                  obtain ⟨v, cs4⟩ := pr2
                  rw [hv] at h
                  dsimp only at h
                  cases hsk4 : skipWs cs4 with
                  | nil => rw [hsk4] at h; exact absurd h (by simp)
                  | cons d r1 =>
                    rw [hsk4] at h
                    dsimp only at h
                    obtain ⟨d0, r0, hcs3⟩ : ∃ d0 r0, skipWs cs3 = d0 :: r0 := by
                      cases hz : skipWs cs3 with
                      | nil => rw [hz, parseVal_nil] at hv; exact absurd hv (by simp)
                      | cons a b => exact ⟨a, b, rfl⟩
                    have e3 : skipWs (cs3 ++ ext) = skipWs cs3 ++ ext := by
                      rw [skipWs_append_of_cons ext hcs3, hcs3]; rfl
                    have hnumv : ∀ tok, v = .num tok → cs4 ≠ [] := by
                      intro tok _ hc
                      rw [hc] at hsk4
                      exact absurd hsk4 (by simp [skipWs_nil])
                    have e4 : parseVal fuel2 (skipWs cs3 ++ ext) = some (v, cs4 ++ ext) :=
                      ihV (skipWs cs3) v cs4 ext hv hnumv
                    have e5 : skipWs (cs4 ++ ext) = d :: (r1 ++ ext) :=
                      skipWs_append_of_cons ext hsk4
                    rw [e3, e4]
                    dsimp only
                    rw [e5]
                    dsimp only
                    by_cases hd : d = ','
                    · rw [if_pos hd] at h ⊢
                      cases hm2 : parseMembers fuel (skipWs r1) with
                      | none => rw [hm2] at h; exact absurd h (by simp)
                      | some pr3 =>
                        obtain ⟨ms2, r2⟩ := pr3
                        rw [hm2] at h
                        dsimp only at h
                        cases h
                        obtain ⟨a0, b0, hskr⟩ : ∃ a0 b0, skipWs r1 = a0 :: b0 := by
                          cases hz : skipWs r1 with
                          | nil => rw [hz, parseMembers_nil] at hm2; exact absurd hm2 (by simp)
                          | cons a b => exact ⟨a, b, rfl⟩
                        have e6 : skipWs (r1 ++ ext) = skipWs r1 ++ ext := by
                          rw [skipWs_append_of_cons ext hskr, hskr]; rfl
                        have e7 := ihM (skipWs r1) ms2 _ ext hm2
                        rw [e6, e7]
                    · rw [if_neg hd] at h ⊢
                      by_cases hdb : d = rbrace
                      · rw [if_pos hdb] at h ⊢
                        cases h
                        rfl
                      · rw [if_neg hdb] at h; exact absurd h (by simp)
              · rw [if_neg hco] at h; exact absurd h (by simp)
        · rw [if_neg hq] at h; exact absurd h (by simp)
    · -- the parseItems component
      intro cs xs r ext h
      rw [parseItems_succ] at h
      rw [parseItems_succ]
      cases hv : parseVal fuel cs with
      | none => rw [hv] at h; exact absurd h (by simp)
      | some pr =>
        obtain ⟨v, cs2⟩ := pr
        rw [hv] at h
        dsimp only at h
        cases hsk : skipWs cs2 with
        | nil => rw [hsk] at h; exact absurd h (by simp)
        | cons d r1 =>
          rw [hsk] at h
          dsimp only at h
          have hnumv : ∀ tok, v = .num tok → cs2 ≠ [] := by
            intro tok _ hc
            rw [hc] at hsk
            exact absurd hsk (by simp [skipWs_nil])
          have e4 : parseVal fuel2 (cs ++ ext) = some (v, cs2 ++ ext) :=
            ihV cs v cs2 ext hv hnumv
          have e5 : skipWs (cs2 ++ ext) = d :: (r1 ++ ext) :=
            skipWs_append_of_cons ext hsk
          rw [e4]
          dsimp only
          rw [e5]
          dsimp only
          by_cases hd : d = ','
          · rw [if_pos hd] at h ⊢
            cases hm2 : parseItems fuel (skipWs r1) with
            | none => rw [hm2] at h; exact absurd h (by simp)
            | some pr2 =>
              obtain ⟨xs2, r2⟩ := pr2
              rw [hm2] at h
              dsimp only at h
              cases h
              obtain ⟨a0, b0, hskr⟩ : ∃ a0 b0, skipWs r1 = a0 :: b0 := by
                cases hz : skipWs r1 with
                | nil => rw [hz, parseItems_nil] at hm2; exact absurd hm2 (by simp)
                | cons a b => exact ⟨a, b, rfl⟩
              have e6 : skipWs (r1 ++ ext) = skipWs r1 ++ ext := by
                rw [skipWs_append_of_cons ext hskr, hskr]; rfl
              have e7 := ihI (skipWs r1) xs2 _ ext hm2
              rw [e6, e7]
          · rw [if_neg hd] at h ⊢
            by_cases hdb : d = ']'
            · rw [if_pos hdb] at h ⊢
              cases h
              rfl
            · rw [if_neg hdb] at h; exact absurd h (by simp)

/-! ## Prefix stability of the whole-input parse -/

theorem String.data_append_eq (p q : String) : (p ++ q).data = p.data ++ q.data := by
  cases p; cases q; rfl

/-- If a prefix of the input already parses as a complete JSON object,
then whatever the whole input parses to is that same object (the trailing
part can only be whitespace for the whole-input parse to succeed). -/
theorem parseJson_prefix_obj (p q : String) (ms : JObj) (j : Json)
    (hp : parseJson p = some (.obj ms)) (hs : parseJson (p ++ q) = some j) :
    j = .obj ms := by
  unfold parseJson at hp hs
  rw [String.data_append_eq] at hs
  cases hv : parseVal (p.data.length + 1) (skipWs p.data) with
  | none => rw [hv] at hp; exact absurd hp (by simp)
  | some pr =>
    obtain ⟨j0, r0⟩ := pr
    rw [hv] at hp
    dsimp only at hp
    have hj0 : j0 = .obj ms := by
      by_cases hws : r0.all isWsChar = true
      · rw [if_pos hws] at hp; cases hp; rfl
      · rw [if_neg hws] at hp; exact absurd hp (by simp)
    subst hj0
    obtain ⟨d0, r1, hsw⟩ : ∃ d0 r1, skipWs p.data = d0 :: r1 := by
      cases hz : skipWs p.data with
      | nil => rw [hz, parseVal_nil] at hv; exact absurd hv (by simp)
      | cons a b => exact ⟨a, b, rfl⟩
    have hskw : skipWs (p.data ++ q.data) = skipWs p.data ++ q.data := by
      rw [skipWs_append_of_cons q.data hsw, hsw]; rfl
    have hext := ((parseExtend (p.data.length + 1) ((p.data ++ q.data).length + 1)
        (by simp [List.length_append])).1) (skipWs p.data) (.obj ms) r0 q.data hv
        (by intro tok htok; cases htok)
    rw [hskw, hext] at hs
    dsimp only at hs
    by_cases hws2 : (r0 ++ q.data).all isWsChar = true
    · rw [if_pos hws2] at hs; cases hs; rfl
    · rw [if_neg hws2] at hs; exact absurd hs (by simp)

/-- A truthy property can only be read off an object. -/
theorem truthyOpt_getField_obj {j : Json} {key : String}
    (h : truthyOpt (getField j key) = true) : ∃ ms, j = .obj ms := by
  cases j with
  | obj ms => exact ⟨ms, rfl⟩
  | null => simp [getField, truthyOpt] at h
  | bool b => simp [getField, truthyOpt] at h
  | num tok => simp [getField, truthyOpt] at h
  | str s => simp [getField, truthyOpt] at h
  | arr xs => simp [getField, truthyOpt] at h

/-- Envelope prefix stability: once a buffer prefix closes the Turn with
envelope `e`, the full buffer can only ever have envelope `e` as well, and
conversely the envelope seen at any closing prefix equals the envelope of
the full input. -/
theorem envelopeOf_prefix (p q : String) (e j : Json)
    (hp : envelopeOf p = some e) (hs : parseJson (p ++ q) = some j) :
    j = e := by
  obtain ⟨hpp, htr⟩ := envelopeOf_eq_some hp
  obtain ⟨ms, rfl⟩ : ∃ ms, e = .obj ms := by
    have h1 : truthyOpt (getField e "type") = true := by
      cases hb : truthyOpt (getField e "type")
      · rw [hb] at htr; simp at htr
      · rfl
    exact truthyOpt_getField_obj h1
  exact parseJson_prefix_obj p q ms j hpp hs

/-- The envelope of a closing prefix agrees with that of the full input. -/
theorem envelopeOf_prefix_full (p q : String) (e j : Json)
    (hp : envelopeOf p = some e) (hs : envelopeOf (p ++ q) = some j) :
    j = e := envelopeOf_prefix p q e j hp (envelopeOf_eq_some hs).1

/-! ## Run lemmas: a turn that finally parses, and a turn that overflows -/

theorem concatFrags_nil : concatFrags [] = "" := rfl

theorem concatFrags_cons (f : String) (fs : List String) :
    concatFrags (f :: fs) = f ++ concatFrags fs := rfl

theorem envelopeOf_empty : envelopeOf "" = none := rfl

theorem handleStreaming_close_facts (p : Props) (t : Nat) (s : ChatState) (chunk : String)
    (j : Json) (h0 : s.responseCompleted = false)
    (he : envelopeOf (s.currentMessage ++ chunk) = some j)
    (hd : s.lastProcessedResponse ≠ some j) :
    (handleStreamingMessage p t s chunk).responseCompleted = true ∧
    (handleStreamingMessage p t s chunk).messages =
      updateLastIfAssistant
        (fun m => { m with
          parsedResponse := some j,
          content := displayOf ((getField j "reply").getD .null) })
        (appendChunk t s (s.currentMessage ++ chunk)).messages ∧
    (handleStreamingMessage p t s chunk).isLoading = false ∧
    (handleStreamingMessage p t s chunk).currentAssistant = false := by
  rw [handleStreaming_close p t s chunk j h0 he hd]
  dsimp only
  split
  · refine ⟨(handleAdminResponse_fields _ _ _).1, ?_, (handleAdminResponse_fields _ _ _).2.2.2.1,
      (handleAdminResponse_fields _ _ _).2.2.2.2⟩
    rw [(handleAdminResponse_fields _ _ _).2.1]
  · exact ⟨rfl, rfl, rfl, rfl⟩

theorem runFragments_commits (p : Props) (t : Nat) :
    ∀ (frags : List String) (s : ChatState) (j : Json),
      s.responseCompleted = false →
      s.lastProcessedResponse = none →
      (s.currentAssistant = true →
        ∃ pre m, s.messages = pre ++ [m] ∧ m.sender = Sender.assistant) →
      envelopeOf s.currentMessage = none →
      envelopeOf (s.currentMessage ++ concatFrags frags) = some j →
      (∀ n, n < frags.length →
        envelopeOf (s.currentMessage ++ concatFrags (frags.take (n + 1))) = none →
        (s.currentMessage ++ concatFrags (frags.take (n + 1))).length ≤ messageLengthCeiling) →
      (runFragments p t s frags).responseCompleted = true ∧
      ∃ pre m, (runFragments p t s frags).messages = pre ++ [m] ∧
        m.sender = Sender.assistant ∧ m.parsedResponse = some j ∧
        m.content = displayOf ((getField j "reply").getD .null) := by
  intro frags
  induction frags with
  | nil =>
    intro s j h0 hlp hshape henone henv hceil
    rw [concatFrags_nil, String.append_empty] at henv
    rw [henone] at henv
    exact absurd henv (by simp)
  | cons f fs ih =>
    intro s j h0 hlp hshape henone henv hceil
    have hassoc : s.currentMessage ++ concatFrags (f :: fs) =
        (s.currentMessage ++ f) ++ concatFrags fs := by
      rw [concatFrags_cons, String.append_assoc]
    cases he1 : envelopeOf (s.currentMessage ++ f) with
    | some j1 =>
      have hj : j = j1 := by
        apply envelopeOf_prefix_full (s.currentMessage ++ f) (concatFrags fs) j1 j he1
        rw [← hassoc]; exact henv
      subst hj
      have hdne : s.lastProcessedResponse ≠ some j := by rw [hlp]; simp
      obtain ⟨hc1, hc2, _, _⟩ := handleStreaming_close_facts p t s f j h0 he1 hdne
      rw [runFragments_cons, runFragments_of_completed p t _ fs hc1]
      refine ⟨hc1, ?_⟩
      rw [hc2, appendChunk_messages]
      cases hca : s.currentAssistant with
      | false =>
        rw [if_pos rfl, updateLastIfAssistant_append]
        rw [if_pos (by rfl)]
        exact ⟨s.messages, _, rfl, rfl, rfl, rfl⟩
      | true =>
        rw [if_neg (by simp [hca])]
        obtain ⟨pre, m, hm, hsender⟩ := hshape hca
        rw [hm, updateLastIfAssistant_append, updateLastIfAssistant_append,
          if_pos (by simp [hsender]), if_pos (by simp [hsender])]
        exact ⟨pre, _, rfl, hsender, rfl, rfl⟩
    | none =>
      have hlen : (s.currentMessage ++ f).length ≤ messageLengthCeiling := by
        have h1 := hceil 0 (by simp only [List.length_cons]; omega)
        rw [List.take_succ_cons, List.take_zero, concatFrags_cons, concatFrags_nil,
          String.append_empty] at h1
        exact h1 he1
      rw [runFragments_cons, handleStreaming_open p t s f h0 he1 hlen]
      apply ih (appendChunk t s (s.currentMessage ++ f)) j
      · rw [(appendChunk_fields _ _ _).2.2.1, h0]
      · rw [(appendChunk_fields _ _ _).2.2.2.1, hlp]
      · intro _
        rw [appendChunk_messages]
        cases hca : s.currentAssistant with
        | false =>
          rw [if_pos rfl]
          exact ⟨s.messages, _, rfl, rfl⟩
        | true =>
          rw [if_neg (by simp [hca])]
          obtain ⟨pre, m, hm, hsender⟩ := hshape hca
          rw [hm, updateLastIfAssistant_append, if_pos (by simp [hsender])]
          exact ⟨pre, _, rfl, hsender⟩
      · rw [(appendChunk_fields _ _ _).2.1]
        exact he1
      · rw [(appendChunk_fields _ _ _).2.1, ← hassoc]
        exact henv
      · intro n hn hnone
        rw [(appendChunk_fields _ _ _).2.1] at hnone ⊢
        have h2 := hceil (n + 1) (by simp only [List.length_cons]; omega)
        rw [List.take_succ_cons, concatFrags_cons, ← String.append_assoc] at h2
        exact h2 hnone

theorem runFragments_overflow (p : Props) (t : Nat) :
    ∀ (frags : List String) (k : Nat) (s : ChatState),
      s.responseCompleted = false →
      (s.currentAssistant = true →
        ∃ pre m, s.messages = pre ++ [m] ∧ m.sender = Sender.assistant ∧
          m.parsedResponse = none) →
      (∀ n, n < frags.length →
        envelopeOf (s.currentMessage ++ concatFrags (frags.take (n + 1))) = none) →
      k < frags.length →
      (∀ n, n < k →
        (s.currentMessage ++ concatFrags (frags.take (n + 1))).length ≤ messageLengthCeiling) →
      (s.currentMessage ++ concatFrags (frags.take (k + 1))).length > messageLengthCeiling →
      (runFragments p t s frags).responseCompleted = true ∧
      (runFragments p t s frags).isLoading = false ∧
      (runFragments p t s frags).dispatches = s.dispatches ∧
      ∃ pre m, (runFragments p t s frags).messages = pre ++ [m] ∧
        m.sender = Sender.assistant ∧ m.parsedResponse = none ∧
        m.content = s.currentMessage ++ concatFrags (frags.take (k + 1)) := by
  intro frags
  induction frags with
  | nil =>
    intro k s _ _ _ hk _ _
    exact absurd hk (by simp)
  | cons f fs ih =>
    intro k s h0 hshape hnone hk hbound hover
    have he1 : envelopeOf (s.currentMessage ++ f) = none := by
      have := hnone 0 (by simp only [List.length_cons]; omega)
      rw [List.take_succ_cons, List.take_zero, concatFrags_cons, concatFrags_nil,
        String.append_empty] at this
      exact this
    cases k with
    | zero =>
      rw [List.take_succ_cons, List.take_zero, concatFrags_cons, concatFrags_nil,
        String.append_empty] at hover ⊢
      rw [runFragments_cons, handleStreaming_overflow p t s f h0 he1 hover]
      rw [runFragments_of_completed p t _ fs rfl]
      refine ⟨rfl, rfl, (appendChunk_fields _ _ _).2.2.2.2.2, ?_⟩
      show ∃ pre m, (appendChunk t s (s.currentMessage ++ f)).messages = pre ++ [m] ∧ _
      rw [appendChunk_messages]
      cases hca : s.currentAssistant with
      | false =>
        rw [if_pos rfl]
        exact ⟨s.messages, _, rfl, rfl, rfl, rfl⟩
      | true =>
        rw [if_neg (by simp [hca])]
        obtain ⟨pre, m, hm, hsender, hpr⟩ := hshape hca
        rw [hm, updateLastIfAssistant_append, if_pos (by simp [hsender])]
        exact ⟨pre, _, rfl, hsender, hpr, rfl⟩
    | succ k0 =>
      have hlen : (s.currentMessage ++ f).length ≤ messageLengthCeiling := by
        have := hbound 0 (by omega)
        rw [List.take_succ_cons, List.take_zero, concatFrags_cons, concatFrags_nil,
          String.append_empty] at this
        exact this
      rw [runFragments_cons, handleStreaming_open p t s f h0 he1 hlen]
      have hmain := ih k0 (appendChunk t s (s.currentMessage ++ f))
        (by rw [(appendChunk_fields _ _ _).2.2.1, h0])
        (by
          intro _
          rw [appendChunk_messages]
          cases hca : s.currentAssistant with
          | false =>
            rw [if_pos rfl]
            exact ⟨s.messages, _, rfl, rfl, rfl⟩
          | true =>
            rw [if_neg (by simp [hca])]
            obtain ⟨pre, m, hm, hsender, hpr⟩ := hshape hca
            rw [hm, updateLastIfAssistant_append, if_pos (by simp [hsender])]
            exact ⟨pre, _, rfl, hsender, hpr⟩)
        (by
          intro n hn
          rw [(appendChunk_fields _ _ _).2.1]
          have h2 := hnone (n + 1) (by simp only [List.length_cons]; omega)
          rw [List.take_succ_cons, concatFrags_cons, ← String.append_assoc] at h2
          exact h2)
        (by simp only [List.length_cons] at hk; omega)
        (by
          intro n hn
          rw [(appendChunk_fields _ _ _).2.1]
          have h2 := hbound (n + 1) (by omega)
          rw [List.take_succ_cons, concatFrags_cons, ← String.append_assoc] at h2
          exact h2)
        (by
          rw [(appendChunk_fields _ _ _).2.1]
          rw [List.take_succ_cons, concatFrags_cons, ← String.append_assoc] at hover
          exact hover)
      obtain ⟨hm1, hm2, hm3, pre, m, hmm, hsender, hpr, hcontent⟩ := hmain
      refine ⟨hm1, hm2, ?_, pre, m, hmm, hsender, hpr, ?_⟩
      · rw [hm3, (appendChunk_fields _ _ _).2.2.2.2.2]
      · rw [hcontent, (appendChunk_fields _ _ _).2.1,
          List.take_succ_cons, concatFrags_cons, ← String.append_assoc]

/-! ## Claims -/

/-- C2: once a Turn's completion latch (`responseCompletedRef`) is set, a
subsequently delivered fragment for that session leaves the state entirely
unchanged — no buffer append, no message mutation, no parse attempt, no
dispatch — and the next user send (possible only over a live connection)
resets the latch. -/
theorem claim_C2 (p : Props) (t : Nat) (s : ChatState) (chunk : String)
    (h : s.responseCompleted = true) :
    handleStreamingMessage p t s chunk = s ∧
    (∀ t2 c, s.wsState ≠ none → s.isConnected = true →
      (sendMessage t2 s c).responseCompleted = false) := by
  refine ⟨handleStreaming_of_completed p t s chunk h, ?_⟩
  intro t2 c hws hconn
  unfold sendMessage
  rw [if_neg (by simp [hws, hconn])]

/-- C2 witness: a concrete latched, connected state is left untouched by a
further fragment, and a fresh send resets the latch. -/
theorem claim_C2_witness :
    ({ initialState with
        responseCompleted := true
        wsState := some WsReady.open
        isConnected := true } : ChatState).responseCompleted = true ∧
    handleStreamingMessage ⟨true, true, true, true⟩ 1
        { initialState with
          responseCompleted := true
          wsState := some WsReady.open
          isConnected := true } "x" =
      { initialState with
        responseCompleted := true
        wsState := some WsReady.open
        isConnected := true } ∧
    (sendMessage 2
      { initialState with
        responseCompleted := true
        wsState := some WsReady.open
        isConnected := true } "hi").responseCompleted = false :=
  ⟨rfl,
   (claim_C2 ⟨true, true, true, true⟩ 1 _ "x" rfl).1,
   (claim_C2 ⟨true, true, true, true⟩ 1 _ "x" rfl).2 2 "hi" (by simp) rfl⟩

/-- C4: within one Turn, a closing fragment (whose arrival completes a
truthy `reply`+`type` envelope not suppressed by the fingerprint) sets the
latch, and delivering the same fragment again is a complete no-op: the
state — dispatch log included — is unchanged, so at most one dispatch to
the Response Router occurs and the duplicate is dropped silently. -/
theorem claim_C4 (p : Props) (t : Nat) (s : ChatState) (frag : String) (j : Json)
    (h0 : s.responseCompleted = false)
    (he : envelopeOf (s.currentMessage ++ frag) = some j)
    (hd : s.lastProcessedResponse ≠ some j) :
    (handleStreamingMessage p t s frag).responseCompleted = true ∧
    handleStreamingMessage p t (handleStreamingMessage p t s frag) frag =
      handleStreamingMessage p t s frag := by
  have h1 := (handleStreaming_close_facts p t s frag j h0 he hd).1
  exact ⟨h1, handleStreaming_of_completed p t _ frag h1⟩

/-- C4 witness: the closing fragment of the specification's scenario,
delivered twice in a row from a fresh Turn. -/
theorem claim_C4_witness :
    envelopeOf ((sendMessage 1 (onOpen (connect initialState)) "hello").currentMessage ++
        "\x7b\"reply\":\"Hi\",\"type\":\"user\"\x7d") =
      some (.obj (.cons "reply" (.str "Hi") (.cons "type" (.str "user") .nil))) ∧
    handleStreamingMessage ⟨true, true, true, true⟩ 2
        (handleStreamingMessage ⟨true, true, true, true⟩ 2
          (sendMessage 1 (onOpen (connect initialState)) "hello")
          "\x7b\"reply\":\"Hi\",\"type\":\"user\"\x7d")
        "\x7b\"reply\":\"Hi\",\"type\":\"user\"\x7d" =
      handleStreamingMessage ⟨true, true, true, true⟩ 2
        (sendMessage 1 (onOpen (connect initialState)) "hello")
        "\x7b\"reply\":\"Hi\",\"type\":\"user\"\x7d" :=
  ⟨by decide,
   (claim_C4 ⟨true, true, true, true⟩ 2 _ _
      (.obj (.cons "reply" (.str "Hi") (.cons "type" (.str "user") .nil)))
      (by decide) (by decide) (by decide)).2⟩

/-- C6: an admin response whose `config` carries only a `workflows`
section (no `objects`, no `layout`) dispatches exactly one event — the
converted workflow list to the workflow consumer; the object and layout
consumers receive zero calls and the absent sections raise no error. -/
theorem claim_C6 (p : Props) (s : ChatState) (resp cfg w : Json)
    (hcfg : getField resp "config" = some cfg)
    (hobj : getField cfg "objects" = none)
    (hlay : getField cfg "layout" = none)
    (hwf : getField cfg "workflows" = some w)
    (htr : truthy w = true)
    (hp : p.onWorkflowsUpdated = true) :
    (handleAdminResponse p s resp).dispatches =
      s.dispatches ++ [Dispatch.workflowsUpdated
        (convertWorkflows (jGetOr cfg "app_id" (.num "1")) (entriesOf w))] := by
  unfold handleAdminResponse
  simp only [secOf, hcfg, hobj, hlay, hwf, truthyOpt, htr, hp, Option.getD_some,
    Bool.false_and, Bool.true_and, Bool.and_true, if_false, if_true,
    Bool.false_eq_true, ite_false, ite_true]

/-- C6 witness: a concrete admin envelope with a single workflow and
nothing else in `config`. -/
theorem claim_C6_witness :
    (handleAdminResponse ⟨true, true, true, true⟩ initialState
        (.obj (.cons "reply" (.str "ok") (.cons "type" (.str "admin")
          (.cons "config" (.obj (.cons "workflows"
            (.obj (.cons "wf1" (.obj (.cons "description" (.str "d") .nil)) .nil))
            .nil)) .nil))))).dispatches =
      [Dispatch.workflowsUpdated
        [⟨"wf1", .arr .nil, .num "1", .str "d", "draft"⟩]] :=
  claim_C6 ⟨true, true, true, true⟩ initialState _
    (.obj (.cons "workflows"
      (.obj (.cons "wf1" (.obj (.cons "description" (.str "d") .nil)) .nil)) .nil))
    (.obj (.cons "wf1" (.obj (.cons "description" (.str "d") .nil)) .nil))
    (by decide) (by decide) (by decide) (by decide) (by decide) rfl

/-- C9: when the 30,000 ms response watchdog fires on a loading Turn (also
with zero fragments received), the loading flag clears, the in-progress
assistant reference is abandoned, the message list — and hence whatever
text has accumulated — stands, and no payload is dispatched; the handler
is a total function, so no crash is possible. -/
theorem claim_C9 (s : ChatState) (h : s.isLoading = true) :
    (loadingTimeoutFire s).isLoading = false ∧
    (loadingTimeoutFire s).currentAssistant = false ∧
    (loadingTimeoutFire s).messages = s.messages ∧
    (loadingTimeoutFire s).dispatches = s.dispatches ∧
    responseTimeoutMs = 30000 :=
  ⟨rfl, rfl, rfl, rfl, rfl⟩

/-- C9 witness: the watchdog fires after a send with zero fragments
received. -/
theorem claim_C9_witness :
    (sendMessage 1 (onOpen (connect initialState)) "hello").isLoading = true ∧
    (loadingTimeoutFire (sendMessage 1 (onOpen (connect initialState)) "hello")).isLoading
      = false :=
  ⟨by decide, (claim_C9 (sendMessage 1 (onOpen (connect initialState)) "hello") (by decide)).1⟩

/-- C1 counterexample: the fragment `\x7b"reply":"","type":"user"\x7d`
concatenates (it is a single fragment) to valid JSON containing both a
`reply` field and a `type` field, yet the handler never closes the Turn:
the source gates closure on JavaScript truthiness of `parsed.reply`, and
the empty string is falsy, so the latch stays unset, nothing is committed
and the raw JSON text remains the displayed content. -/
theorem claim_C1_counterexample :
    parseJson "\x7b\"reply\":\"\",\"type\":\"user\"\x7d" =
      some (.obj (.cons "reply" (.str "") (.cons "type" (.str "user") .nil))) ∧
    getField (.obj (.cons "reply" (.str "") (.cons "type" (.str "user") .nil))) "reply" =
      some (.str "") ∧
    getField (.obj (.cons "reply" (.str "") (.cons "type" (.str "user") .nil))) "type" =
      some (.str "user") ∧
    (runFragments ⟨true, true, true, true⟩ 2
        (sendMessage 1 (onOpen (connect initialState)) "hello")
        ["\x7b\"reply\":\"\",\"type\":\"user\"\x7d"]).responseCompleted = false ∧
    closeCount ⟨true, true, true, true⟩ 2
        (sendMessage 1 (onOpen (connect initialState)) "hello")
        ["\x7b\"reply\":\"\",\"type\":\"user\"\x7d"] = 0 ∧
    ((runFragments ⟨true, true, true, true⟩ 2
        (sendMessage 1 (onOpen (connect initialState)) "hello")
        ["\x7b\"reply\":\"\",\"type\":\"user\"\x7d"]).messages.map Message.content) =
      ["hello", "\x7b\"reply\":\"\",\"type\":\"user\"\x7d"] := by
  refine ⟨by decide, by decide, by decide, by decide, by decide, by decide⟩

/-- C1 (amended): for every finite fragment sequence whose concatenation
parses as a JSON object whose `reply` and `type` fields are present and
truthy (for example nonempty strings), and along which no intermediate
buffer that does not itself close the Turn exceeds the 10,000-character
ceiling, feeding the fragments in order to a fresh Turn closes the Turn
exactly once, and the committed assistant-message content equals the
envelope's `reply` field verbatim (via `displayOf`, the identity on
strings). -/
theorem claim_C1_amended (p : Props) (t : Nat) (s : ChatState) (frags : List String) (j : Json)
    (h0 : s.responseCompleted = false)
    (hca : s.currentAssistant = false)
    (hcm : s.currentMessage = "")
    (hlp : s.lastProcessedResponse = none)
    (henv : envelopeOf (concatFrags frags) = some j)
    (hceil : ∀ n, n < frags.length →
      envelopeOf (concatFrags (frags.take (n + 1))) = none →
      (concatFrags (frags.take (n + 1))).length ≤ messageLengthCeiling) :
    closeCount p t s frags = 1 ∧
    (runFragments p t s frags).responseCompleted = true ∧
    ∃ pre m, (runFragments p t s frags).messages = pre ++ [m] ∧
      m.sender = Sender.assistant ∧ m.parsedResponse = some j ∧
      m.content = displayOf ((getField j "reply").getD .null) := by
  have hmain := runFragments_commits p t frags s j h0 hlp
    (by intro hc; rw [hca] at hc; cases hc)
    (by rw [hcm]; exact envelopeOf_empty)
    (by rw [hcm, String.empty_append]; exact henv)
    (by intro n hn; rw [hcm, String.empty_append]; exact hceil n hn)
  refine ⟨?_, hmain.1, hmain.2⟩
  rw [closeCount_eq, if_neg (by simp [h0]), if_pos hmain.1]

/-- C1 witness: the specification's own streaming scenario, split exactly
as given there. -/
theorem claim_C1_witness :
    envelopeOf (concatFrags ["\x7b\"repl", "y\": \"Hi\", \"typ", "e\": \"user\"\x7d"]) =
      some (.obj (.cons "reply" (.str "Hi") (.cons "type" (.str "user") .nil))) ∧
    closeCount ⟨true, true, true, true⟩ 2
        (sendMessage 1 (onOpen (connect initialState)) "hello")
        ["\x7b\"repl", "y\": \"Hi\", \"typ", "e\": \"user\"\x7d"] = 1 ∧
    (runFragments ⟨true, true, true, true⟩ 2
        (sendMessage 1 (onOpen (connect initialState)) "hello")
        ["\x7b\"repl", "y\": \"Hi\", \"typ", "e\": \"user\"\x7d"]).responseCompleted = true :=
  ⟨by decide,
   (claim_C1_amended ⟨true, true, true, true⟩ 2 _ _
      (.obj (.cons "reply" (.str "Hi") (.cons "type" (.str "user") .nil)))
      (by decide) (by decide) (by decide) (by decide) (by decide) (by decide)).1,
   (claim_C1_amended ⟨true, true, true, true⟩ 2 _ _
      (.obj (.cons "reply" (.str "Hi") (.cons "type" (.str "user") .nil)))
      (by decide) (by decide) (by decide) (by decide) (by decide) (by decide)).2.1⟩

/-- C5: for a fragment sequence along which no accumulated buffer ever
forms a truthy envelope, the first buffer that exceeds the
10,000-character ceiling force-closes the Turn: the completion latch is
set, the loading flag clears, the raw accumulated text at that moment
stands as the displayed content of the assistant message (with no parsed
payload attached), and nothing at all is dispatched to any consumer. -/
theorem claim_C5 (p : Props) (t : Nat) (s : ChatState) (frags : List String) (k : Nat)
    (h0 : s.responseCompleted = false)
    (hca : s.currentAssistant = false)
    (hcm : s.currentMessage = "")
    (hnone : ∀ n, n < frags.length →
      envelopeOf (concatFrags (frags.take (n + 1))) = none)
    (hk : k < frags.length)
    (hbound : ∀ n, n < k →
      (concatFrags (frags.take (n + 1))).length ≤ messageLengthCeiling)
    (hover : (concatFrags (frags.take (k + 1))).length > messageLengthCeiling) :
    (runFragments p t s frags).responseCompleted = true ∧
    (runFragments p t s frags).isLoading = false ∧
    (runFragments p t s frags).dispatches = s.dispatches ∧
    ∃ pre m, (runFragments p t s frags).messages = pre ++ [m] ∧
      m.sender = Sender.assistant ∧ m.parsedResponse = none ∧
      m.content = concatFrags (frags.take (k + 1)) := by
  have hmain := runFragments_overflow p t frags k s h0
    (by intro hc; rw [hca] at hc; cases hc)
    (by intro n hn; rw [hcm, String.empty_append]; exact hnone n hn)
    hk
    (by intro n hn; rw [hcm, String.empty_append]; exact hbound n hn)
    (by rw [hcm, String.empty_append]; exact hover)
  obtain ⟨h1, h2, h3, pre, m, hm, hs2, hp2, hc2⟩ := hmain
  rw [hcm, String.empty_append] at hc2
  exact ⟨h1, h2, h3, pre, m, hm, hs2, hp2, hc2⟩

/-- C5 witness: a single 10,001-character non-JSON fragment. -/
theorem claim_C5_witness :
    (String.mk (List.replicate 10001 'a')).length > messageLengthCeiling ∧
    (runFragments ⟨true, true, true, true⟩ 2
        (sendMessage 1 (onOpen (connect initialState)) "hello")
        [String.mk (List.replicate 10001 'a')]).responseCompleted = true ∧
    (runFragments ⟨true, true, true, true⟩ 2
        (sendMessage 1 (onOpen (connect initialState)) "hello")
        [String.mk (List.replicate 10001 'a')]).isLoading = false ∧
    (runFragments ⟨true, true, true, true⟩ 2
        (sendMessage 1 (onOpen (connect initialState)) "hello")
        [String.mk (List.replicate 10001 'a')]).dispatches = [] := by
  have hover : (concatFrags ([String.mk (List.replicate 10001 'a')].take (0 + 1))).length >
      messageLengthCeiling := by
    rw [List.take_succ_cons, List.take_zero, concatFrags_cons, concatFrags_nil,
      String.append_empty]
    show (String.mk (List.replicate 10001 'a')).length > messageLengthCeiling
    rw [show (String.mk (List.replicate 10001 'a')).length = 10001 from
      List.length_replicate 10001 'a']
    decide
  have hnone : ∀ n, n < ([String.mk (List.replicate 10001 'a')] : List String).length →
      envelopeOf (concatFrags (([String.mk (List.replicate 10001 'a')] :
        List String).take (n + 1))) = none := by
    intro n hn
    have hn0 : n = 0 := by simpa using hn
    subst hn0
    rw [List.take_succ_cons, List.take_zero, concatFrags_cons, concatFrags_nil,
      String.append_empty]
    show envelopeOf (String.mk (List.replicate 10001 'a')) = none
    unfold envelopeOf parseJson
    rw [show skipWs (String.mk (List.replicate 10001 'a')).data =
        'a' :: List.replicate 10000 'a' by
      show List.dropWhile isWsChar (List.replicate 10001 'a') = 'a' :: List.replicate 10000 'a'
      rw [show (10001 : Nat) = 10000 + 1 from rfl, List.replicate_succ,
        List.dropWhile_cons_of_neg (by decide)]]
    rw [show parseVal ((String.mk (List.replicate 10001 'a')).data.length + 1)
        ('a' :: List.replicate 10000 'a') = none by
      rw [show ((String.mk (List.replicate 10001 'a')).data.length + 1) = 10001 + 1 by
        rw [show (String.mk (List.replicate 10001 'a')).data.length = 10001 from
          List.length_replicate 10001 'a']]
      rw [parseVal_succ_cons]
      decide]
  have hmain := claim_C5 ⟨true, true, true, true⟩ 2
    (sendMessage 1 (onOpen (connect initialState)) "hello")
    [String.mk (List.replicate 10001 'a')] 0
    (by decide) (by decide) (by decide) hnone (by decide) (by intro n hn; omega) hover
  refine ⟨?_, hmain.1, hmain.2.1, ?_⟩
  · rw [show (String.mk (List.replicate 10001 'a')).length = 10001 from
      List.length_replicate 10001 'a']
    decide
  · rw [hmain.2.2.1]
    decide

/-- C3 (code bug): `sendMessage` resets `responseCompletedRef`, the buffer
and the in-progress reference for the new Turn, but never resets
`lastProcessedResponseRef`, so the dedup fingerprint survives the
StreamSession it belongs to.  Consequence, evaluated on the code: after a
first Turn closes on `\x7b"reply":"Hi","type":"user"\x7d`, a second user
Turn whose stream produces the structurally identical envelope is
suppressed by the stale fingerprint — the second Turn never closes, its
message keeps the raw JSON as content with no parsed result, and
`isLoading` stays stuck at `true` (until the 30 s watchdog).  The claim
(and the specification's per-StreamSession fingerprint lifecycle) say the
second Turn must close normally and commit. -/
theorem claim_C3_code_bug :
    (sendMessage 3
      (handleStreamingMessage ⟨true, true, true, true⟩ 2
        (sendMessage 1 (onOpen (connect initialState)) "hello")
        "\x7b\"reply\":\"Hi\",\"type\":\"user\"\x7d")
      "hello again").lastProcessedResponse =
        some (.obj (.cons "reply" (.str "Hi") (.cons "type" (.str "user") .nil))) ∧
    (handleStreamingMessage ⟨true, true, true, true⟩ 2
        (sendMessage 1 (onOpen (connect initialState)) "hello")
        "\x7b\"reply\":\"Hi\",\"type\":\"user\"\x7d").responseCompleted = true ∧
    (handleStreamingMessage ⟨true, true, true, true⟩ 4
      (sendMessage 3
        (handleStreamingMessage ⟨true, true, true, true⟩ 2
          (sendMessage 1 (onOpen (connect initialState)) "hello")
          "\x7b\"reply\":\"Hi\",\"type\":\"user\"\x7d")
        "hello again")
      "\x7b\"reply\":\"Hi\",\"type\":\"user\"\x7d").responseCompleted = false ∧
    (handleStreamingMessage ⟨true, true, true, true⟩ 4
      (sendMessage 3
        (handleStreamingMessage ⟨true, true, true, true⟩ 2
          (sendMessage 1 (onOpen (connect initialState)) "hello")
          "\x7b\"reply\":\"Hi\",\"type\":\"user\"\x7d")
        "hello again")
      "\x7b\"reply\":\"Hi\",\"type\":\"user\"\x7d").isLoading = true ∧
    ((handleStreamingMessage ⟨true, true, true, true⟩ 4
      (sendMessage 3
        (handleStreamingMessage ⟨true, true, true, true⟩ 2
          (sendMessage 1 (onOpen (connect initialState)) "hello")
          "\x7b\"reply\":\"Hi\",\"type\":\"user\"\x7d")
        "hello again")
      "\x7b\"reply\":\"Hi\",\"type\":\"user\"\x7d").messages.map Message.content) =
      ["hello", "Hi", "hello again", "\x7b\"reply\":\"Hi\",\"type\":\"user\"\x7d"] ∧
    ((handleStreamingMessage ⟨true, true, true, true⟩ 4
      (sendMessage 3
        (handleStreamingMessage ⟨true, true, true, true⟩ 2
          (sendMessage 1 (onOpen (connect initialState)) "hello")
          "\x7b\"reply\":\"Hi\",\"type\":\"user\"\x7d")
        "hello again")
      "\x7b\"reply\":\"Hi\",\"type\":\"user\"\x7d").messages.map
        Message.parsedResponse).getLast? = some none := by
  refine ⟨by decide, by decide, by decide, by decide, by decide, by decide⟩

/-- C7 counterexample: at the initial (disconnected) state the send
operation returns normally having changed nothing but the console log —
the conversation, the wire and the loading flag are untouched and no
`NotConnectedError` (or any error value) reaches the caller; the send
silently does nothing, which is exactly what the claim denies. -/
theorem claim_C7_counterexample :
    sendMessage 5 initialState "hi" =
      { initialState with consoleErrors := ["WebSocket not connected"] } ∧
    (sendMessage 5 initialState "hi").messages = [] ∧
    (sendMessage 5 initialState "hi").wireSent = [] ∧
    (sendMessage 5 initialState "hi").isLoading = false := by
  refine ⟨by decide, by decide, by decide, by decide⟩

/-- C7 (amended): for every send issued while no socket object exists or
the connected flag is down, the operation fails fast as a guarded no-op:
it returns before building or sending the frame and before mutating any
conversation state, logging `WebSocket not connected` to the console; no
distinguishable error value is raised for the caller. -/
theorem claim_C7_amended (t : Nat) (s : ChatState) (c : String)
    (h : s.wsState = none ∨ s.isConnected = false) :
    sendMessage t s c =
      { s with consoleErrors := s.consoleErrors ++ ["WebSocket not connected"] } := by
  unfold sendMessage
  rw [if_pos (by rcases h with h | h <;> simp [h])]

/-- C7 witness: the amended statement at the initial state. -/
theorem claim_C7_amended_witness :
    (initialState.wsState = none ∨ initialState.isConnected = false) ∧
    sendMessage 6 initialState "x" =
      { initialState with consoleErrors := ["WebSocket not connected"] } :=
  ⟨Or.inl rfl, claim_C7_amended 6 initialState "x" (Or.inl rfl)⟩

/-- C8 counterexample: from a connected state, an abnormal close (code
1006) schedules the reconnect; a manual `connect()` issued before the
3000 ms delay elapses does not cancel it — the timer is cleared only in
`onopen` — so the pending attempt is still scheduled after the manual
connect, and when it fires it constructs yet another socket: a
double-connect, contradicting the claim that issuing `connect()` cancels
the pending attempt. -/
theorem claim_C8_counterexample :
    (connect (onClose 1006 (onOpen (connect initialState)))).reconnectPending =
      some reconnectDelayMs ∧
    (reconnectFire (connect (onClose 1006 (onOpen (connect initialState))))).socketsCreated =
      (connect (onClose 1006 (onOpen (connect initialState)))).socketsCreated + 1 := by
  refine ⟨by decide, by decide⟩

/-- C8 (amended): after a graceful disconnect (explicit `disconnect()`
followed by the close event with the graceful code 1000) no reconnect is
pending and none is scheduled; an abnormal close (any other code)
schedules exactly one reconnect attempt with the fixed 3000 ms delay; and
a manual `connect()` whose `onopen` fires before that delay elapses
cancels the pending attempt. -/
theorem claim_C8_amended (s : ChatState) (code : Nat) :
    (onClose gracefulCloseCode (disconnect s)).reconnectPending = none ∧
    (code ≠ gracefulCloseCode →
      (onClose code s).reconnectPending = some reconnectDelayMs ∧ reconnectDelayMs = 3000) ∧
    (onOpen (connect s)).reconnectPending = none := by
  refine ⟨?_, ?_, rfl⟩
  · unfold onClose disconnect
    rw [if_neg (by simp)]
  · intro hc
    unfold onClose
    rw [if_pos hc]
    exact ⟨rfl, rfl⟩

/-- C8 witness: the abnormal-close arm at code 1006 from the initial
state. -/
theorem claim_C8_amended_witness :
    (1006 ≠ gracefulCloseCode) ∧
    (onClose 1006 initialState).reconnectPending = some reconnectDelayMs :=
  ⟨by decide, ((claim_C8_amended initialState 1006).2.1 (by decide)).1⟩

/-- C10: a streamed fragment mutates at most the last message of the
conversation list, and only when that last message is assistant-authored;
every earlier message keeps its `id`, `sender`, `content` and `timestamp`
bit-for-bit (the lists share their `dropLast`), the last message always
keeps its `id`, `sender` and `timestamp`, and the list grows — by exactly
one assistant-authored entry — precisely when the fragment opens a new
assistant Turn (no latch set, no in-progress assistant message). -/
theorem claim_C10 (p : Props) (t : Nat) (s : ChatState) (chunk : String) :
    (s.responseCompleted = false ∧ s.currentAssistant = false →
      ∃ m, m.sender = Sender.assistant ∧
        (handleStreamingMessage p t s chunk).messages = s.messages ++ [m]) ∧
    (s.responseCompleted = true ∨ s.currentAssistant = true →
      (handleStreamingMessage p t s chunk).messages.length = s.messages.length ∧
      (handleStreamingMessage p t s chunk).messages.dropLast = s.messages.dropLast ∧
      ∀ mo mn, s.messages.getLast? = some mo →
        (handleStreamingMessage p t s chunk).messages.getLast? = some mn →
        mn.id = mo.id ∧ mn.sender = mo.sender ∧ mn.timestamp = mo.timestamp ∧
        (mo.sender ≠ Sender.assistant → mn = mo)) := by
  constructor
  · rintro ⟨h0, hca⟩
    obtain ⟨g, hg, hmsg⟩ := handleStreaming_messages_shape p t s chunk h0
    rw [appendChunk_messages, if_pos hca, updateLastIfAssistant_append,
      if_pos (by rfl)] at hmsg
    refine ⟨g (newAssistantMsg t (s.currentMessage ++ chunk)), ?_, hmsg⟩
    rw [(hg _).2.1]
    rfl
  · intro hor
    cases h0 : s.responseCompleted with
    | true =>
      rw [handleStreaming_of_completed p t s chunk h0]
      refine ⟨rfl, rfl, fun mo mn h1 h2 => ?_⟩
      rw [h1] at h2
      cases h2
      exact ⟨rfl, rfl, rfl, fun _ => rfl⟩
    | false =>
      have hca : s.currentAssistant = true := by
        rcases hor with hor | hor
        · rw [h0] at hor; cases hor
        · exact hor
      obtain ⟨g, hg, hmsg⟩ := handleStreaming_messages_shape p t s chunk h0
      rw [appendChunk_messages, if_neg (by simp [hca])] at hmsg
      rw [hmsg]
      refine ⟨?_, ?_, ?_⟩
      · rw [updateLastIfAssistant_length, updateLastIfAssistant_length]
      · rw [updateLastIfAssistant_dropLast, updateLastIfAssistant_dropLast]
      · intro mo mn h1 h2
        rw [updateLastIfAssistant_getLast?, updateLastIfAssistant_getLast?, h1] at h2
        simp only [Option.map_some'] at h2
        cases h2
        by_cases hmo : mo.sender = Sender.assistant
        · rw [if_pos hmo]
          have hs1 : ({ mo with content := s.currentMessage ++ chunk } : Message).sender =
              Sender.assistant := hmo
          rw [if_pos hs1]
          refine ⟨?_, ?_, ?_, fun hcontra => absurd hmo hcontra⟩
          · rw [(hg _).1]
          · rw [(hg _).2.1]
          · rw [(hg _).2.2]
        · rw [if_neg hmo]
          rw [if_neg hmo]
          exact ⟨rfl, rfl, rfl, fun _ => rfl⟩

/-- C10 witness: the first fragment of a fresh Turn appends exactly one
assistant message. -/
theorem claim_C10_witness :
    ((sendMessage 1 (onOpen (connect initialState)) "hello").responseCompleted = false ∧
      (sendMessage 1 (onOpen (connect initialState)) "hello").currentAssistant = false) ∧
    ∃ m, m.sender = Sender.assistant ∧
      (handleStreamingMessage ⟨true, true, true, true⟩ 2
        (sendMessage 1 (onOpen (connect initialState)) "hello") "par").messages =
      (sendMessage 1 (onOpen (connect initialState)) "hello").messages ++ [m] :=
  ⟨⟨rfl, rfl⟩,
   (claim_C10 ⟨true, true, true, true⟩ 2
     (sendMessage 1 (onOpen (connect initialState)) "hello") "par").1 ⟨rfl, rfl⟩⟩
